import Mathlib

/-!
Verification of the spreadsheet-backed CRUD web application
(`server.js` plus the data-engine contract it relies on).

The repository code is thin glue over an external data-engine library
(`CamDB` / GAS-DB) that is not part of the source tree; the specification
describes the engine contract abstractly.  Accordingly the engine
operations below are modelled from the spec (each such definition says so
in its doc comment), while the wrapper-level definitions are translated
directly from `server.js`.
-/

namespace CrudSheets

/-! ## Record store (modelled from the spec, §4.3)

A table is a live list of `(id, record)` rows plus a parallel history
list.  A removed record moves to history and is never erased, so the set
of identifiers in `live ++ hist` is exactly the set of identifiers ever
assigned.  `create` assigns the next unused identifier: one more than the
maximum identifier present anywhere in the table pair (so deleted
identifiers are never reused), or `1` when the table has never held a
record. -/

/-- Modelled from the spec: the Record Store state for one table.
The engine library holding this structure is not part of the repository
source; §3 of the spec says a record "exists in exactly one of
{live table, history table} at any time". -/
structure Table (α : Type) where
  live : List (Nat × α)
  hist : List (Nat × α)

/-- The empty table: no live rows, no history rows. -/
def Table.empty (α : Type) : Table α := ⟨[], []⟩

/-- First-match lookup of an id in a row list (a spreadsheet column scan). -/
def lookupId {α : Type} : List (Nat × α) → Nat → Option α
  | [], _ => none
  | (j, a) :: rest, i => if j = i then some a else lookupId rest i

/-- All identifiers ever assigned: live ids followed by history ids. -/
def Table.allIds {α : Type} (t : Table α) : List Nat :=
  t.live.map Prod.fst ++ t.hist.map Prod.fst

/-- Maximum of a list of naturals, `0` for the empty list. -/
def maxNat (l : List Nat) : Nat := l.foldr max 0

/-- Modelled from the spec: the identifier `create` assigns next,
"max existing + 1, or 1 if empty", where existing identifiers include the
history table (the spec requires identifiers "not reused even after
deletes" and history rows are never erased). -/
def Table.nextId {α : Type} (t : Table α) : Nat := maxNat t.allIds + 1

/-- Modelled from the spec: `create` appends a new row carrying the next
unused identifier. -/
def Table.createRec {α : Type} (t : Table α) (a : α) : Table α :=
  { t with live := t.live ++ [(t.nextId, a)] }

/-- Modelled from the spec: `remove` moves the row with the given id from
the live table to the history table; an absent id leaves the table
unchanged. -/
def Table.removeRec {α : Type} (t : Table α) (id : Nat) : Table α :=
  match lookupId t.live id with
  | some a =>
      { live := t.live.filter (fun p => decide (p.fst ≠ id)),
        hist := t.hist ++ [(id, a)] }
  | none => t

/-- A create/remove operation against one table. -/
inductive Op (α : Type) where
  | create (a : α)
  | remove (id : Nat)

/-- Apply one operation to a table. -/
def Table.applyOp {α : Type} (t : Table α) : Op α → Table α
  | Op.create a => t.createRec a
  | Op.remove i => t.removeRec i

/-- Run a sequence of operations from a starting table. -/
def Table.runFrom {α : Type} (t : Table α) : List (Op α) → Table α
  | [] => t
  | o :: ops => Table.runFrom (t.applyOp o) ops

/-- Run a sequence of operations from the empty table. -/
def Table.run {α : Type} (ops : List (Op α)) : Table α :=
  Table.runFrom (Table.empty α) ops

/-- The identifiers assigned by the `create` operations of a run, in
order of assignment. -/
def assignedTrace {α : Type} : Table α → List (Op α) → List Nat
  | _, [] => []
  | t, Op.create a :: ops =>
      t.nextId :: assignedTrace (t.applyOp (Op.create a)) ops
  | t, Op.remove i :: ops => assignedTrace (t.applyOp (Op.remove i)) ops

/-! ### Record-store lemmas -/

theorem le_maxNat {l : List Nat} {i : Nat} (h : i ∈ l) : i ≤ maxNat l := by
  induction l with
  | nil => cases h
  | cons x xs ih =>
      rcases List.mem_cons.mp h with rfl | h
      · exact Nat.le_max_left _ _
      · exact Nat.le_trans (ih h) (Nat.le_max_right _ _)

theorem maxNat_le_of_subset {l₁ l₂ : List Nat} (h : ∀ i ∈ l₁, i ∈ l₂) :
    maxNat l₁ ≤ maxNat l₂ := by
  induction l₁ with
  | nil => exact Nat.zero_le _
  | cons x xs ih =>
      have hx : x ≤ maxNat l₂ := le_maxNat (h x (List.mem_cons_self _ _))
      have hxs : maxNat xs ≤ maxNat l₂ :=
        ih (fun i hi => h i (List.mem_cons_of_mem _ hi))
      exact Nat.max_le.mpr ⟨hx, hxs⟩

theorem mem_allIds_createRec {α : Type} (t : Table α) (a : α) {i : Nat} :
    i ∈ (t.createRec a).allIds ↔ i ∈ t.allIds ∨ i = t.nextId := by
  simp only [Table.createRec, Table.allIds, List.map_append, List.map_cons,
    List.map_nil, List.mem_append, List.mem_singleton]
  tauto

theorem lookupId_eq_none {α : Type} {l : List (Nat × α)} {i : Nat}
    (h : ∀ p ∈ l, p.fst ≠ i) : lookupId l i = none := by
  induction l with
  | nil => rfl
  | cons p rest ih =>
      have hp : p.fst ≠ i := h p (List.mem_cons_self _ _)
      obtain ⟨j, a⟩ := p
      simp only [lookupId, if_neg hp]
      exact ih (fun q hq => h q (List.mem_cons_of_mem _ hq))

theorem lookupId_mem {α : Type} {l : List (Nat × α)} {i : Nat} {a : α}
    (h : lookupId l i = some a) : (i, a) ∈ l := by
  induction l with
  | nil => simp [lookupId] at h
  | cons p rest ih =>
      obtain ⟨j, b⟩ := p
      rw [lookupId] at h
      split at h
      · next hji =>
          injection h with hba
          subst hba hji
          exact List.mem_cons_self _ _
      · next hji => exact List.mem_cons_of_mem _ (ih h)

theorem mem_allIds_removeRec {α : Type} (t : Table α) (k : Nat) (i : Nat) :
    i ∈ (t.removeRec k).allIds ↔ i ∈ t.allIds := by
  unfold Table.removeRec
  cases hl : lookupId t.live k with
  | none => rfl
  | some a =>
      have hk : (k, a) ∈ t.live := lookupId_mem hl
      simp only [Table.allIds, List.map_append, List.map_cons, List.map_nil,
        List.mem_append, List.mem_singleton, List.mem_map, List.mem_filter,
        decide_eq_true_eq]
      constructor
      · rintro (⟨p, ⟨hp, _⟩, rfl⟩ | h | hik)
        · exact Or.inl ⟨p, hp, rfl⟩
        · exact Or.inr h
        · exact Or.inl ⟨(k, a), hk, hik.symm⟩
      · rintro (⟨p, hp, rfl⟩ | h)
        · by_cases hpi : p.fst = k
          · exact Or.inr (Or.inr hpi)
          · exact Or.inl ⟨p, ⟨hp, hpi⟩, rfl⟩
        · exact Or.inr (Or.inl h)

theorem nextId_removeRec {α : Type} (t : Table α) (id : Nat) :
    (t.removeRec id).nextId = t.nextId := by
  unfold Table.nextId
  have h₁ := maxNat_le_of_subset
    (fun i hi => (mem_allIds_removeRec t id i).mp hi)
  have h₂ := maxNat_le_of_subset
    (fun i hi => (mem_allIds_removeRec t id i).mpr hi)
  omega

theorem nextId_lt_nextId_createRec {α : Type} (t : Table α) (a : α) :
    t.nextId < (t.createRec a).nextId := by
  have hmem : t.nextId ∈ (t.createRec a).allIds :=
    (mem_allIds_createRec t a).mpr (Or.inr rfl)
  have := le_maxNat hmem
  unfold Table.nextId at *
  omega

theorem nextId_le_applyOp {α : Type} (t : Table α) (o : Op α) :
    t.nextId ≤ (t.applyOp o).nextId := by
  cases o with
  | create a => exact Nat.le_of_lt (nextId_lt_nextId_createRec t a)
  | remove i => exact Nat.le_of_eq (nextId_removeRec t i).symm

theorem nextId_le_assignedTrace {α : Type} (ops : List (Op α)) (t : Table α)
    {i : Nat} (h : i ∈ assignedTrace t ops) : t.nextId ≤ i := by
  induction ops generalizing t with
  | nil => cases h
  | cons o ops ih =>
      cases o with
      | create a =>
          rcases List.mem_cons.mp h with rfl | h
          · exact Nat.le_refl _
          · exact Nat.le_trans (nextId_le_applyOp t (Op.create a)) (ih _ h)
      | remove j =>
          exact Nat.le_trans (nextId_le_applyOp t (Op.remove j)) (ih _ h)

theorem assignedTrace_nodup {α : Type} (ops : List (Op α)) (t : Table α) :
    (assignedTrace t ops).Nodup := by
  induction ops generalizing t with
  | nil => exact List.nodup_nil
  | cons o ops ih =>
      cases o with
      | create a =>
          refine List.nodup_cons.mpr ⟨?_, ih _⟩
          intro hmem
          have hle := nextId_le_assignedTrace ops (t.applyOp (Op.create a)) hmem
          have hlt := nextId_lt_nextId_createRec t a
          simp only [Table.applyOp] at hle
          omega
      | remove j => exact ih _

theorem mem_allIds_lt_nextId {α : Type} (t : Table α) {i : Nat}
    (h : i ∈ t.allIds) : i < t.nextId := by
  have := le_maxNat h
  unfold Table.nextId
  omega

theorem mapFst_filter_ne {α : Type} (l : List (Nat × α)) (k : Nat) :
    (l.filter (fun p => decide (p.fst ≠ k))).map Prod.fst =
      (l.map Prod.fst).filter (fun i => decide (i ≠ k)) := by
  induction l with
  | nil => rfl
  | cons p rest ih =>
      by_cases hp : p.fst = k
      · rw [List.map_cons, List.filter_cons_of_neg, List.filter_cons_of_neg, ih]
        · simp [hp]
        · simp [hp]
      · rw [List.map_cons, List.filter_cons_of_pos, List.filter_cons_of_pos,
          List.map_cons, ih]
        · simp [hp]
        · simp [hp]

theorem allIds_nodup_applyOp {α : Type} (t : Table α) (o : Op α)
    (h : t.allIds.Nodup) : (t.applyOp o).allIds.Nodup := by
  cases o with
  | create a =>
      have hbound : ∀ i ∈ t.allIds, i < t.nextId := fun i hi =>
        mem_allIds_lt_nextId t hi
      have hnot : t.nextId ∉ t.allIds := fun hmem =>
        Nat.lt_irrefl _ (hbound _ hmem)
      simp only [Table.applyOp, Table.createRec, Table.allIds,
        List.map_append, List.map_cons, List.map_nil] at *
      rw [List.append_assoc]
      rw [show [t.nextId] ++ t.hist.map Prod.fst =
        t.nextId :: t.hist.map Prod.fst from rfl]
      rw [List.nodup_middle]
      exact List.nodup_cons.mpr ⟨hnot, h⟩
  | remove id =>
      simp only [Table.applyOp]
      unfold Table.removeRec
      cases hl : lookupId t.live id with
      | none => exact h
      | some a =>
          have hid : id ∈ t.live.map Prod.fst :=
            List.mem_map.mpr ⟨(id, a), lookupId_mem hl, rfl⟩
          simp only [Table.allIds, List.map_append, List.map_cons,
            List.map_nil] at *
          rw [mapFst_filter_ne]
          rw [List.nodup_append] at h
          obtain ⟨hlive, hhist, hdisj⟩ := h
          rw [← List.append_assoc, List.nodup_append]
          refine ⟨?_, List.nodup_singleton _, ?_⟩
          · rw [List.nodup_append]
            refine ⟨hlive.filter _, hhist, ?_⟩
            intro x hx hx2
            exact hdisj (List.mem_of_mem_filter hx) hx2
          · intro x hx hx2
            rw [List.mem_singleton] at hx2
            subst hx2
            rcases List.mem_append.mp hx with hx | hx
            · have := List.of_mem_filter hx
              simp at this
            · exact hdisj hid hx

theorem allIds_runFrom_nodup {α : Type} (ops : List (Op α)) (t : Table α)
    (h : t.allIds.Nodup) : (Table.runFrom t ops).allIds.Nodup := by
  induction ops generalizing t with
  | nil => exact h
  | cons o ops ih => exact ih _ (allIds_nodup_applyOp t o h)

theorem lookupId_append_right {α : Type} (l₁ l₂ : List (Nat × α)) (i : Nat)
    (h : ∀ p ∈ l₁, p.fst ≠ i) :
    lookupId (l₁ ++ l₂) i = lookupId l₂ i := by
  induction l₁ with
  | nil => rfl
  | cons p rest ih =>
      obtain ⟨j, a⟩ := p
      have hp : j ≠ i := h (j, a) (List.mem_cons_self _ _)
      simp only [List.cons_append, lookupId, if_neg hp]
      exact ih (fun q hq => h q (List.mem_cons_of_mem _ hq))

theorem maxNat_le {l : List Nat} {m : Nat} (h : ∀ i ∈ l, i ≤ m) :
    maxNat l ≤ m := by
  induction l with
  | nil => exact Nat.zero_le _
  | cons x xs ih =>
      have hx : x ≤ m := h x (List.mem_cons_self _ _)
      have hxs : maxNat xs ≤ m := ih (fun i hi => h i (List.mem_cons_of_mem _ hi))
      exact Nat.max_le.mpr ⟨hx, hxs⟩

theorem maximum_eq_maxNat {l : List Nat} {m : Nat}
    (h : l.maximum = (m : WithBot Nat)) : maxNat l = m := by
  have hmem : m ∈ l := List.maximum_mem h
  have hle : ∀ i ∈ l, i ≤ m := fun i hi => List.le_maximum_of_mem hi h
  exact Nat.le_antisymm (maxNat_le hle) (le_maxNat hmem)

theorem lookupId_append_left {α : Type} (l₁ l₂ : List (Nat × α)) (i : Nat) (a : α)
    (h : lookupId l₁ i = some a) : lookupId (l₁ ++ l₂) i = some a := by
  induction l₁ with
  | nil => simp [lookupId] at h
  | cons p rest ih =>
      obtain ⟨j, b⟩ := p
      rw [lookupId] at h
      rw [List.cons_append, lookupId]
      split at h
      · next hji => rw [if_pos hji]; exact h
      · next hji => rw [if_neg hji]; exact ih h

/-- C1: for every reachable table (any sequence of create and remove
operations from the empty table), `create` assigns the new record the
identifier max existing + 1 (1 when the table has never held a record),
the assigned identifiers over the whole run are pairwise distinct (never
reused, even after the record holding the maximum identifier is deleted),
and the identifiers held across live and history tables stay distinct. -/
theorem create_id_fresh_never_reused (α : Type) (ops : List (Op α)) :
    ((Table.run ops).allIds.Nodup
    ∧ (assignedTrace (Table.empty α) ops).Nodup)
    ∧ (∀ a : α,
        lookupId ((Table.run ops).createRec a).live (Table.run ops).nextId = some a)
    ∧ (∀ m : Nat, (Table.run ops).allIds.maximum = (m : WithBot Nat) →
        (Table.run ops).nextId = m + 1)
    ∧ ((Table.run ops).allIds = [] → (Table.run ops).nextId = 1) := by
  set t := Table.run ops with ht
  have hnodup : t.allIds.Nodup := by
    rw [ht]
    exact allIds_runFrom_nodup ops (Table.empty α) List.nodup_nil
  refine ⟨⟨hnodup, assignedTrace_nodup ops (Table.empty α)⟩, ?_, ?_, ?_⟩
  · intro a
    have hlt : ∀ p ∈ t.live, p.fst ≠ t.nextId := by
      intro p hp
      have : p.fst ∈ t.allIds := by
        simp only [Table.allIds, List.mem_append]
        exact Or.inl (List.mem_map.mpr ⟨p, hp, rfl⟩)
      exact Nat.ne_of_lt (mem_allIds_lt_nextId t this)
    show lookupId (t.live ++ [(t.nextId, a)]) t.nextId = some a
    rw [lookupId_append_right _ _ _ hlt]
    simp [lookupId]
  · intro m hm
    unfold Table.nextId
    rw [maximum_eq_maxNat hm]
  · intro hempty
    unfold Table.nextId
    rw [hempty]
    rfl

/-- Witness for C1 at a concrete run: two creates, removal of the record
holding the maximum identifier, then another create — the next identifier
is 4, not a reuse of 2; on the empty run the first identifier is 1. -/
theorem create_id_fresh_never_reused_witness :
    (Table.run [Op.create true, Op.create false, Op.remove 2,
      Op.create true]).nextId = 4
    ∧ (Table.run ([] : List (Op Bool))).nextId = 1 :=
  ⟨(create_id_fresh_never_reused Bool
      [Op.create true, Op.create false, Op.remove 2, Op.create true]).2.2.1
      3 (by decide),
   (create_id_fresh_never_reused Bool []).2.2.2 (by decide)⟩

/-! ## Soft delete and read (modelled from the spec, §4.3 and §7)

`remove` moves a record to the history table and deletes it from the live
table as one logical operation; if the history-table write fails the
live-table delete must not apply.  `read` fails with `NotFoundError` when
the id is absent from the live table. -/

/-- The error taxonomy of the engine (spec §7), restricted to the errors
the claims mention. -/
inductive DbError where
  | notFound
  | historyWriteFailed
  | junctionCleanupFailed
  deriving DecidableEq

/-- Modelled from the spec: `read(id)` over the live table; `NotFoundError`
when the id is absent. -/
def Table.readRec {α : Type} (t : Table α) (k : Nat) : Except DbError α :=
  match lookupId t.live k with
  | some a => Except.ok a
  | none => Except.error DbError.notFound

/-- Modelled from the spec: `remove(id)` with an explicit success flag for
the history-table write (the engine library is not in the source tree).
Returns the error, if any, together with the resulting table: a missing id
or a failed history write leaves the table unchanged; otherwise the record
moves to history and leaves the live table in the same step. -/
def Table.removeChecked {α : Type} (t : Table α) (k : Nat) (histOk : Bool) :
    Option DbError × Table α :=
  match lookupId t.live k with
  | none => (some DbError.notFound, t)
  | some a =>
      if histOk then
        (none,
          { live := t.live.filter (fun p => decide (p.fst ≠ k)),
            hist := t.hist ++ [(k, a)] })
      else (some DbError.historyWriteFailed, t)

theorem lookupId_filter_ne {α : Type} (l : List (Nat × α)) (k : Nat) :
    lookupId (l.filter (fun p => decide (p.fst ≠ k))) k = none := by
  refine lookupId_eq_none ?_
  intro p hp
  have := List.of_mem_filter hp
  simpa using this

/-- C3: removing an id present in the live table of a well-formed table
(distinct ids across live and history) with a succeeding history write
reports no error, makes a subsequent `read` of that id fail with
`NotFoundError`, and stores the record under the same id in the history
table with its original value; when the history write fails, the table is
unchanged, so the record stays in the live table. -/
theorem remove_moves_to_history_atomically {α : Type} (t : Table α) (k : Nat)
    (a : α) (hwf : t.allIds.Nodup) (hk : lookupId t.live k = some a) :
    ((t.removeChecked k true).fst = none
    ∧ (t.removeChecked k true).snd.readRec k = Except.error DbError.notFound
    ∧ lookupId (t.removeChecked k true).snd.hist k = some a)
    ∧ (t.removeChecked k false = (some DbError.historyWriteFailed, t)
    ∧ (t.removeChecked k false).snd.readRec k = Except.ok a) := by
  have hmemlive : k ∈ t.live.map Prod.fst :=
    List.mem_map.mpr ⟨(k, a), lookupId_mem hk, rfl⟩
  have hnothist : ∀ p ∈ t.hist, p.fst ≠ k := by
    intro p hp hpk
    have hdisj := List.disjoint_of_nodup_append (by
      simpa [Table.allIds] using hwf)
    exact hdisj hmemlive (List.mem_map.mpr ⟨p, hp, hpk⟩)
  constructor
  · refine ⟨?_, ?_, ?_⟩
    · simp [Table.removeChecked, hk]
    · have hlive : (t.removeChecked k true).snd.live =
          t.live.filter (fun p => decide (p.fst ≠ k)) := by
        simp [Table.removeChecked, hk]
      unfold Table.readRec
      rw [hlive, lookupId_filter_ne]
    · simp only [Table.removeChecked, hk, if_pos]
      rw [lookupId_append_right _ _ _ hnothist]
      simp [lookupId]
  · constructor
    · simp [Table.removeChecked, hk]
    · simp [Table.removeChecked, hk, Table.readRec]

/-- Witness for C3 on a concrete table: live rows 1 and 2, history row 3. -/
theorem remove_moves_to_history_atomically_witness :
    ((Table.mk [(1, "alpha"), (2, "beta")] [(3, "gone")]).removeChecked 2
        true).snd.readRec 2 = Except.error DbError.notFound
    ∧ lookupId ((Table.mk [(1, "alpha"), (2, "beta")]
        [(3, "gone")]).removeChecked 2 true).snd.hist 2 = some "beta" := by
  have h := remove_moves_to_history_atomically
    (Table.mk [(1, "alpha"), (2, "beta")] [(3, "gone")]) 2 "beta"
    (by decide) rfl
  exact ⟨h.1.2.1, h.1.2.2⟩

/-! ## Cascade deletion (modelled from the spec, §4.5)

`removeWithCascade(table, historyTable, id)` deletes every junction row
whose foreign key equals `id` (moving each to the junction history table)
and only then performs the normal `remove` on the parent record; if the
junction cleanup fails the operation aborts before the parent is touched.
In `server.js` this is reached through `removeProduct` and `removeOrder`. -/

/-- Modelled from the spec: the state `removeWithCascade` acts on — the
parent table pair plus one junction table pair whose rows carry the
foreign key to the parent in their first component. -/
structure CascadeState (α β : Type) where
  parent : Table α
  junction : List (Nat × β)
  junctionHist : List (Nat × β)

/-- Modelled from the spec: `removeWithCascade` with explicit success
flags for the junction history write and the parent history write
(the engine library is not in the source tree).  Cleanup of the junction
rows happens strictly before the parent `remove`; a failed junction
cleanup aborts with the whole state unchanged. -/
def removeWithCascade {α β : Type} (st : CascadeState α β) (k : Nat)
    (juncOk parentOk : Bool) : Option DbError × CascadeState α β :=
  if juncOk then
    let st1 : CascadeState α β :=
      { parent := st.parent,
        junction := st.junction.filter (fun p => decide (p.fst ≠ k)),
        junctionHist :=
          st.junctionHist ++ st.junction.filter (fun p => decide (p.fst = k)) }
    match st.parent.removeChecked k parentOk with
    | (none, t2) => (none, { st1 with parent := t2 })
    | (some e, t2) => (some e, { st1 with parent := t2 })
  else (some DbError.junctionCleanupFailed, st)

theorem filter_ne_then_eq_nil {α : Type} (l : List (Nat × α)) (k : Nat) :
    (l.filter (fun p => decide (p.fst ≠ k))).filter
      (fun p => decide (p.fst = k)) = [] := by
  rw [List.filter_eq_nil_iff]
  intro p hp
  have := List.of_mem_filter hp
  simp at this ⊢
  exact this

/-- C2: a successful `removeWithCascade` leaves zero junction rows whose
foreign key equals the removed id in the live junction table, has moved
exactly those rows to the junction history table, and the parent record is
gone from the parent live table; if the junction cleanup step fails, the
operation aborts with the whole state — in particular the parent live
table — unchanged, and reports the failure. -/
theorem removeWithCascade_cleans_children_before_parent {α β : Type}
    (st : CascadeState α β) (k : Nat) (parentOk : Bool)
    (hsucc : (removeWithCascade st k true parentOk).fst = none) :
    ((removeWithCascade st k true parentOk).snd.junction.filter
        (fun p => decide (p.fst = k)) = []
    ∧ (removeWithCascade st k true parentOk).snd.junctionHist =
        st.junctionHist ++ st.junction.filter (fun p => decide (p.fst = k))
    ∧ (removeWithCascade st k true parentOk).snd.parent.readRec k =
        Except.error DbError.notFound)
    ∧ (∀ pOk, removeWithCascade st k false pOk =
        (some DbError.junctionCleanupFailed, st)) := by
  refine ⟨?_, fun pOk => rfl⟩
  unfold removeWithCascade at hsucc ⊢
  simp only [if_pos] at hsucc ⊢
  cases hrc : st.parent.removeChecked k parentOk with
  | mk e t2 =>
      cases e with
      | none =>
          simp only [hrc] at hsucc ⊢
          refine ⟨filter_ne_then_eq_nil _ _, by trivial, ?_⟩
          have hor : parentOk = true ∧ ∃ a, lookupId st.parent.live k = some a := by
            unfold Table.removeChecked at hrc
            cases hl : lookupId st.parent.live k with
            | none => rw [hl] at hrc; cases hrc
            | some a =>
                rw [hl] at hrc
                cases hpo : parentOk with
                | false => rw [hpo] at hrc; simp at hrc
                | true => exact ⟨rfl, a, rfl⟩
          obtain ⟨hpo, a, hl⟩ := hor
          subst hpo
          unfold Table.removeChecked at hrc
          rw [hl] at hrc
          simp only [if_pos] at hrc
          have ht2 : t2.live = st.parent.live.filter (fun p => decide (p.fst ≠ k)) := by
            cases hrc; rfl
          show t2.readRec k = Except.error DbError.notFound
          unfold Table.readRec
          rw [ht2, lookupId_filter_ne]
      | some err => simp only [hrc] at hsucc; cases hsucc

/-- Witness for C2 on a concrete state: parent row 7 with junction rows
referencing 7 and 9; the cascade empties the k = 7 junction rows and then
removes the parent. -/
theorem removeWithCascade_cleans_children_before_parent_witness :
    ((removeWithCascade
        (CascadeState.mk (Table.mk [(7, "laptop")] []) [(7, 2), (9, 1), (7, 5)] [])
        7 true true).snd.junction.filter (fun p => decide (p.fst = 7)) = []
    ∧ (removeWithCascade
        (CascadeState.mk (Table.mk [(7, "laptop")] []) [(7, 2), (9, 1), (7, 5)] [])
        7 true true).snd.parent.readRec 7 = Except.error DbError.notFound)
    ∧ removeWithCascade
        (CascadeState.mk (Table.mk [(7, "laptop")] []) [(7, 2), (9, 1), (7, 5)] [])
        7 false true =
      (some DbError.junctionCleanupFailed,
        CascadeState.mk (Table.mk [(7, "laptop")] []) [(7, 2), (9, 1), (7, 5)] []) := by
  have h := removeWithCascade_cleans_children_before_parent
    (CascadeState.mk (Table.mk [(7, "laptop")] []) [(7, 2), (9, 1), (7, 5)] [])
    7 true (by decide)
  exact ⟨⟨h.1.1, h.1.2.2⟩, h.2 true⟩

/-! ## Validator (modelled from the spec, §4.2)

For each declared field: if the value is absent, or the null policy says
treat-null-as-missing and the value is null, substitute the default if
present, else mark the field missing; present values are coerced to the
declared type.  `server.js` declares the CATEGORY `name` field with
`{type: "string", default: "default_name", treatNullAsMissing: true}`. -/

/-- A stored field value of the engine. -/
inductive Value where
  | str (s : String)
  | num (n : Int)
  | boolean (b : Bool)
  | date (t : Int)
  deriving DecidableEq

/-- The declared field types of the engine. -/
inductive FieldType where
  | string
  | number
  | booleanT
  | dateT
  deriving DecidableEq

/-- Modelled from the spec: a field declaration — type, optional default,
null policy. -/
structure FieldSpec where
  ftype : FieldType
  dflt : Option Value
  treatNullAsMissing : Bool

/-- A raw input value for one declared field, as seen by the validator:
the key is absent from the raw record, present with a null value, or
present with a proper value. -/
inductive RawInput where
  | absent
  | null
  | given (v : Value)
  deriving DecidableEq

/-- Modelled from the spec: simplified type coercion — a value of the
declared type passes through; any other value is a per-field
`TypeCoercionError` (the engine library with the real coercion table is
not in the source tree). -/
def coerceValue (ft : FieldType) (v : Value) : Option Value :=
  match ft, v with
  | FieldType.string, Value.str s => some (Value.str s)
  | FieldType.number, Value.num n => some (Value.num n)
  | FieldType.booleanT, Value.boolean b => some (Value.boolean b)
  | FieldType.dateT, Value.date t => some (Value.date t)
  | _, _ => none

/-- Outcome of validating one declared field. -/
inductive FieldOutcome where
  | stored (v : Value)
  | missing
  | coercionError
  deriving DecidableEq

/-- Modelled from the spec, §4.2: validate one declared field — absent, or
null under treat-null-as-missing, substitutes the default when one exists
and otherwise marks the field missing; a present value is coerced. -/
def validateField (fs : FieldSpec) (rv : RawInput) : FieldOutcome :=
  match rv with
  | RawInput.absent =>
      match fs.dflt with
      | some d => FieldOutcome.stored d
      | none => FieldOutcome.missing
  | RawInput.null =>
      if fs.treatNullAsMissing then
        match fs.dflt with
        | some d => FieldOutcome.stored d
        | none => FieldOutcome.missing
      else FieldOutcome.coercionError
  | RawInput.given v =>
      match coerceValue fs.ftype v with
      | some w => FieldOutcome.stored w
      | none => FieldOutcome.coercionError

/-- First-match lookup of a string key in an association list. -/
def lookupKey {α : Type} : List (String × α) → String → Option α
  | [], _ => none
  | (m, a) :: rest, n => if m = n then some a else lookupKey rest n

/-- A raw input record: field name to raw input (a field not listed is
absent). -/
def rawGet (r : List (String × RawInput)) (n : String) : RawInput :=
  (lookupKey r n).getD RawInput.absent

/-- Modelled from the spec: validate every declared field of a table
against a raw record. -/
def validateRecord (fields : List (String × FieldSpec))
    (r : List (String × RawInput)) : List (String × FieldOutcome) :=
  fields.map (fun nf => (nf.fst, validateField nf.snd (rawGet r nf.fst)))

/-- From `server.js` `categoryTableConfig`: the CATEGORY `name` field —
string type, default `"default_name"`, `treatNullAsMissing: true`. -/
def categoryNameSpec : FieldSpec :=
  { ftype := FieldType.string,
    dflt := some (Value.str "default_name"),
    treatNullAsMissing := true }

/-- From `server.js` `categoryTableConfig`: the declared CATEGORY fields. -/
def categoryFields : List (String × FieldSpec) :=
  [("name", categoryNameSpec),
   ("created_at", { ftype := FieldType.dateT, dflt := none,
                    treatNullAsMissing := false })]

/-- C5: creating a CATEGORY record whose `name` is absent or null stores
`name = "default_name"`; in general, any declared field whose raw value is
absent — or null under treat-null-as-missing — and which has a default is
stored with that default. -/
theorem create_category_name_defaults (r : List (String × RawInput))
    (hname : rawGet r "name" = RawInput.absent ∨ rawGet r "name" = RawInput.null) :
    lookupKey (validateRecord categoryFields r) "name" =
      some (FieldOutcome.stored (Value.str "default_name"))
    ∧ (∀ (fs : FieldSpec) (rv : RawInput) (d : Value),
        (rv = RawInput.absent ∨ (fs.treatNullAsMissing ∧ rv = RawInput.null)) →
        fs.dflt = some d → validateField fs rv = FieldOutcome.stored d) := by
  constructor
  · have hval : validateField categoryNameSpec (rawGet r "name") =
        FieldOutcome.stored (Value.str "default_name") := by
      rcases hname with h | h <;> rw [h] <;> rfl
    simp [validateRecord, categoryFields, lookupKey, hval]
  · rintro fs rv d (rfl | ⟨htreat, rfl⟩) hd
    · simp [validateField, hd]
    · simp [validateField, htreat, hd]

/-- Witness for C5: a raw CATEGORY record containing only `created_at`
(no `name` key) validates to the default name. -/
theorem create_category_name_defaults_witness :
    lookupKey (validateRecord categoryFields
        [("created_at", RawInput.given (Value.date 1700000000))]) "name" =
      some (FieldOutcome.stored (Value.str "default_name")) :=
  (create_category_name_defaults
    [("created_at", RawInput.given (Value.date 1700000000))]
    (Or.inl (by decide))).1

/-! ## Bulk read (modelled from the spec, §4.3)

`readIdList(ids)` returns `{data: [...found], notFound: [...missing ids]}`
preserving input order; reached through `readMultipleCategories`. -/

/-- The result shape of `readIdList`. -/
structure IdListResult (α : Type) where
  data : List α
  notFound : List Nat

/-- Modelled from the spec: `readIdList` walks the requested ids in order,
collecting the record for each id found in the live table into `data` and
each missing id into `notFound`. -/
def readIdList {α : Type} (t : Table α) (ids : List Nat) : IdListResult α :=
  { data := ids.filterMap (fun i => lookupId t.live i),
    notFound := ids.filter (fun i => (lookupId t.live i).isNone) }

theorem filterMap_eq_filterMap_filter_isSome {α : Type} (f : Nat → Option α)
    (ids : List Nat) :
    ids.filterMap f = (ids.filter (fun i => (f i).isSome)).filterMap f := by
  induction ids with
  | nil => rfl
  | cons i is ih =>
      cases hl : f i with
      | none => simp [List.filterMap_cons, List.filter_cons, hl, ih]
      | some a => simp [List.filterMap_cons, List.filter_cons, hl, ih]

theorem length_filterMap_add_length_filter_none {α : Type} (f : Nat → Option α)
    (ids : List Nat) :
    (ids.filterMap f).length + (ids.filter (fun i => (f i).isNone)).length =
      ids.length := by
  induction ids with
  | nil => rfl
  | cons i is ih =>
      cases hl : f i with
      | none =>
          simp only [List.filterMap_cons, List.filter_cons, hl,
            Option.isNone_none, if_pos, List.length_cons]
          omega
      | some a =>
          simp only [List.filterMap_cons, List.filter_cons, hl,
            Option.isNone_some, List.length_cons, Bool.false_eq_true, if_false]
          omega

/-- C6: `readIdList` returns in `data` exactly the records of the ids
present in the live table, in input order (the records of the
present-id sublist, in order), and in `notFound` exactly the absent ids in
input order (an order-preserving sublist); no absent id contributes a
record (the lengths add up to the input length) and no present id appears
in `notFound`. -/
theorem readIdList_found_and_missing {α : Type} (t : Table α) (ids : List Nat) :
    (readIdList t ids).data =
      (ids.filter (fun i => (lookupId t.live i).isSome)).filterMap
        (fun i => lookupId t.live i)
    ∧ (∀ i, i ∈ (readIdList t ids).notFound ↔
        i ∈ ids ∧ lookupId t.live i = none)
    ∧ (readIdList t ids).notFound.Sublist ids
    ∧ (∀ i ∈ ids, ∀ a, lookupId t.live i = some a → a ∈ (readIdList t ids).data)
    ∧ (readIdList t ids).data.length + (readIdList t ids).notFound.length =
        ids.length := by
  refine ⟨?_, ?_, ?_, ?_, ?_⟩
  · exact filterMap_eq_filterMap_filter_isSome (fun i => lookupId t.live i) ids
  · intro i
    unfold readIdList
    simp only [List.mem_filter, Option.isNone_iff_eq_none, decide_eq_true_eq]
  · unfold readIdList
    exact List.filter_sublist _
  · intro i hi a ha
    unfold readIdList
    exact List.mem_filterMap.mpr ⟨i, hi, ha⟩
  · exact length_filterMap_add_length_filter_none (fun i => lookupId t.live i) ids

/-- Witness for C6 at a concrete table and id list mixing present and
absent ids, matching the `readMultipleCategories` doc example shape. -/
theorem readIdList_found_and_missing_witness :
    (readIdList (Table.mk [(1, "books"), (2, "games")] []) [2, 5, 1, 10]).data =
        ["games", "books"]
    ∧ (readIdList (Table.mk [(1, "books"), (2, "games")] [])
        [2, 5, 1, 10]).notFound = [5, 10]
    ∧ (readIdList (Table.mk [(1, "books"), (2, "games")] [])
        [2, 5, 1, 10]).data.length +
      (readIdList (Table.mk [(1, "books"), (2, "games")] [])
        [2, 5, 1, 10]).notFound.length = 4 := by
  refine ⟨by decide, by decide, ?_⟩
  exact (readIdList_found_and_missing
    (Table.mk [(1, "books"), (2, "games")] []) [2, 5, 1, 10]).2.2.2.2

/-! ## Junction queries (modelled from the spec, §4.4)

`getJunctionRecords(junctionTable, sourceEntityTable, targetEntityTable,
sourceId, options)` scans the junction table for rows whose source-entity
foreign key equals `sourceId`; direction is controlled purely by swapping
which table is source and which is target.  `server.js` exercises both
directions through `readOrderDetailFromOrder` (ORDER as source) and
`readOrderDetailFromProduct` (PRODUCT as source). -/

/-- A junction (ORDER_DETAIL-like) row: the two foreign keys plus the
extra relationship attributes. -/
structure JunctionRow (γ : Type) where
  orderFk : Nat
  productFk : Nat
  attrs : γ

/-- Which entity table acts as the source of a junction query. -/
inductive JunctionDir where
  | fromOrder
  | fromProduct
  deriving DecidableEq

/-- The source-entity foreign key of a row under a query direction. -/
def sourceFk {γ : Type} : JunctionDir → JunctionRow γ → Nat
  | JunctionDir.fromOrder, r => r.orderFk
  | JunctionDir.fromProduct, r => r.productFk

/-- Modelled from the spec: step (1) of `getJunctionRecords` — scan the
junction table for the rows whose source-entity foreign key equals the
source id (steps (2)–(3) only merge target-entity fields onto each such
row, so the returned rows and their foreign-key pairs are these). -/
def getJunctionRecords {γ : Type} (jt : List (JunctionRow γ))
    (d : JunctionDir) (sourceId : Nat) : List (JunctionRow γ) :=
  jt.filter (fun r => decide (sourceFk d r = sourceId))

/-- The foreign-key pair of a junction row, oriented (order, product). -/
def fkPair {γ : Type} (r : JunctionRow γ) : Nat × Nat := (r.orderFk, r.productFk)

theorem count_fkPair_getJunctionRecords_fromOrder {γ : Type}
    (jt : List (JunctionRow γ)) (a b : Nat) :
    ((getJunctionRecords jt JunctionDir.fromOrder a).map fkPair).count (a, b) =
      (jt.map fkPair).count (a, b) := by
  induction jt with
  | nil => rfl
  | cons r rest ih =>
      by_cases hfk : r.orderFk = a
      · rw [getJunctionRecords, List.filter_cons_of_pos (by simp [sourceFk, hfk])]
        rw [List.map_cons, List.map_cons]
        rw [List.count_cons, List.count_cons, ← getJunctionRecords, ih]
      · rw [getJunctionRecords, List.filter_cons_of_neg (by simp [sourceFk, hfk])]
        rw [List.map_cons, List.count_cons, ← getJunctionRecords, ih]
        have hne : fkPair r ≠ (a, b) := fun h => hfk (congrArg Prod.fst h)
        simp [hne]

theorem count_fkPair_getJunctionRecords_fromProduct {γ : Type}
    (jt : List (JunctionRow γ)) (a b : Nat) :
    ((getJunctionRecords jt JunctionDir.fromProduct b).map fkPair).count (a, b) =
      (jt.map fkPair).count (a, b) := by
  induction jt with
  | nil => rfl
  | cons r rest ih =>
      by_cases hfk : r.productFk = b
      · rw [getJunctionRecords, List.filter_cons_of_pos (by simp [sourceFk, hfk])]
        rw [List.map_cons, List.map_cons]
        rw [List.count_cons, List.count_cons, ← getJunctionRecords, ih]
      · rw [getJunctionRecords, List.filter_cons_of_neg (by simp [sourceFk, hfk])]
        rw [List.map_cons, List.count_cons, ← getJunctionRecords, ih]
        have hne : fkPair r ≠ (a, b) := fun h => hfk (congrArg Prod.snd h)
        simp [hne]

/-- C7: over the same junction table, the ORDER→PRODUCT query from order
`a` and the PRODUCT→ORDER query from product `b` carry symmetric
relationship data: each foreign-key pair `(a, b)` occurs the same number
of times in both query results (both equal its multiplicity in the whole
junction table), hence it appears in one result iff it appears in the
other — the junction table itself is undirected, and swapping source and
target is the only difference between the two directions. -/
theorem getJunctionRecords_symmetric {γ : Type} (jt : List (JunctionRow γ))
    (a b : Nat) :
    (((getJunctionRecords jt JunctionDir.fromOrder a).map fkPair).count (a, b) =
      ((getJunctionRecords jt JunctionDir.fromProduct b).map fkPair).count (a, b))
    ∧ ((a, b) ∈ (getJunctionRecords jt JunctionDir.fromOrder a).map fkPair ↔
        (a, b) ∈ (getJunctionRecords jt JunctionDir.fromProduct b).map fkPair)
    ∧ (((getJunctionRecords jt JunctionDir.fromOrder a).map fkPair).count (a, b) =
        (jt.map fkPair).count (a, b)) := by
  have h₁ := count_fkPair_getJunctionRecords_fromOrder jt a b
  have h₂ := count_fkPair_getJunctionRecords_fromProduct jt a b
  refine ⟨h₁.trans h₂.symm, ?_, h₁⟩
  rw [← List.count_pos_iff, ← List.count_pos_iff, h₁, h₂]

/-- Witness for C7 on a concrete junction table holding pairs
(1,5), (1,6), (2,5), (1,5): querying from order 1 and from product 5 both
see the pair (1,5) twice. -/
theorem getJunctionRecords_symmetric_witness :
    ((getJunctionRecords
        [JunctionRow.mk 1 5 "q2", JunctionRow.mk 1 6 "q1",
         JunctionRow.mk 2 5 "q3", JunctionRow.mk 1 5 "q7"]
        JunctionDir.fromOrder 1).map fkPair).count (1, 5) =
      ((getJunctionRecords
        [JunctionRow.mk 1 5 "q2", JunctionRow.mk 1 6 "q1",
         JunctionRow.mk 2 5 "q3", JunctionRow.mk 1 5 "q7"]
        JunctionDir.fromProduct 5).map fkPair).count (1, 5)
    ∧ ((getJunctionRecords
        [JunctionRow.mk 1 5 "q2", JunctionRow.mk 1 6 "q1",
         JunctionRow.mk 2 5 "q3", JunctionRow.mk 1 5 "q7"]
        JunctionDir.fromOrder 1).map fkPair).count (1, 5) = 2 :=
  ⟨(getJunctionRecords_symmetric
      [JunctionRow.mk 1 5 "q2", JunctionRow.mk 1 6 "q1",
       JunctionRow.mk 2 5 "q3", JunctionRow.mk 1 5 "q7"] 1 5).1,
   by decide⟩

/-! ## Concurrent updates under the table lock (spec §4.6 and §8)

The Concurrency Guard of the spec serializes the write operations against one
table: two concurrent `update` calls to the same id execute in one of the
two sequential orders.  The possible final records are therefore the two
serializations, and each reflects the later patch in full. -/

/-- A record as a total assignment of field values. -/
def RecordState : Type := String → Value

/-- An update patch: the submitted field values. -/
def Patch : Type := List (String × Value)

/-- Apply a patch to a record: patched fields take the patch value, other
fields keep their current value. -/
def applyPatch (r : RecordState) (p : Patch) : RecordState :=
  fun f => (lookupKey p f).getD (r f)

/-- Modelled from the spec: the per-table exclusive write lock serializes
two concurrent `update` calls against the same id, so the final record is
one of the two sequential orders (the engine library holding the lock is
not in the source tree). -/
def concurrentUpdateOutcomes (r : RecordState) (p₁ p₂ : Patch) :
    List RecordState :=
  [applyPatch (applyPatch r p₁) p₂, applyPatch (applyPatch r p₂) p₁]

/-- A final record reflects a patch in full: every patched field holds the
value the patch submitted. -/
def reflectsPatch (s : RecordState) (p : Patch) : Prop :=
  ∀ f v, lookupKey p f = some v → s f = v

theorem reflectsPatch_applyPatch (r : RecordState) (p : Patch) :
    reflectsPatch (applyPatch r p) p := by
  intro f v hv
  unfold applyPatch
  rw [hv]
  rfl

theorem applyPatch_not_mem (r : RecordState) (p : Patch) (f : String)
    (hf : lookupKey p f = none) : applyPatch r p f = r f := by
  unfold applyPatch
  rw [hf]
  rfl

/-- C8: any outcome of two lock-serialized concurrent updates of the same
record reflects at least one of the two submitted patches in full (no lost
update, never a state reflecting neither patch, and on every field patched
by both the value comes from that single winning patch); a field patched
by neither keeps its prior value; and when the patched field sets are
disjoint the outcome reflects both patches in full (the only merge the
claim allows). -/
theorem concurrent_updates_no_lost_update (r : RecordState) (p₁ p₂ : Patch)
    (s : RecordState) (hs : s ∈ concurrentUpdateOutcomes r p₁ p₂) :
    (reflectsPatch s p₁ ∨ reflectsPatch s p₂)
    ∧ (∀ f, lookupKey p₁ f = none → lookupKey p₂ f = none → s f = r f)
    ∧ ((∀ f, lookupKey p₁ f = none ∨ lookupKey p₂ f = none) →
        reflectsPatch s p₁ ∧ reflectsPatch s p₂) := by
  have hcases : s = applyPatch (applyPatch r p₁) p₂
      ∨ s = applyPatch (applyPatch r p₂) p₁ := by
    simpa [concurrentUpdateOutcomes] using hs
  have main : ∀ (q₁ q₂ : Patch), (reflectsPatch (applyPatch (applyPatch r q₁) q₂) q₂)
      ∧ (∀ f, lookupKey q₁ f = none → lookupKey q₂ f = none →
          applyPatch (applyPatch r q₁) q₂ f = r f)
      ∧ ((∀ f, lookupKey q₁ f = none ∨ lookupKey q₂ f = none) →
          reflectsPatch (applyPatch (applyPatch r q₁) q₂) q₁) := by
    intro q₁ q₂
    refine ⟨reflectsPatch_applyPatch _ _, ?_, ?_⟩
    · intro f h₁ h₂
      rw [applyPatch_not_mem _ _ _ h₂, applyPatch_not_mem _ _ _ h₁]
    · intro hdisj f v hv
      rcases hdisj f with h | h
      · rw [hv] at h
        cases h
      · rw [applyPatch_not_mem _ _ _ h]
        exact reflectsPatch_applyPatch r q₁ f v hv
  rcases hcases with rfl | rfl
  · obtain ⟨h₁, h₂, h₃⟩ := main p₁ p₂
    exact ⟨Or.inr h₁, h₂, fun hd => ⟨h₃ hd, h₁⟩⟩
  · obtain ⟨h₁, h₂, h₃⟩ := main p₂ p₁
    refine ⟨Or.inl h₁, fun f ha hb => h₂ f hb ha, fun hd => ⟨h₁, h₃ ?_⟩⟩
    intro f
    exact (hd f).symm

/-- Witness for C8 at a concrete record and two disjoint patches: the
first serialization order reflects both patches in full. -/
theorem concurrent_updates_no_lost_update_witness :
    reflectsPatch
      (applyPatch (applyPatch (fun _ => Value.num 0) [("name", Value.str "a")])
        [("price", Value.num 5)])
      [("name", Value.str "a")]
    ∧ reflectsPatch
      (applyPatch (applyPatch (fun _ => Value.num 0) [("name", Value.str "a")])
        [("price", Value.num 5)])
      [("price", Value.num 5)] :=
  (concurrent_updates_no_lost_update (fun _ => Value.num 0)
      [("name", Value.str "a")] [("price", Value.num 5)]
      (applyPatch (applyPatch (fun _ => Value.num 0) [("name", Value.str "a")])
        [("price", Value.num 5)])
      (List.mem_cons_self _ _)).2.2
    (by
      intro f
      by_cases hf : f = "name"
      · subst hf
        exact Or.inr (by rfl)
      · exact Or.inl (by
          rw [lookupKey, if_neg (fun h => hf h.symm)]
          rfl))

/-! ## JavaScript-side values and the wrapper layer of `server.js`

The wrapper functions of `server.js` receive the response
envelope and return `JSON.stringify(response)`.  To state what they do we
embed the JavaScript values they handle: primitives (including valid and
invalid `Date` objects), flat records, and the response envelope. -/

/-- A JavaScript primitive value as handled by `server.js`: the records of
this application are flat, so field values are primitives. -/
inductive Prim where
  | undef
  | null
  | boolean (b : Bool)
  | num (n : Int)
  | str (s : String)
  | date (t : Int)
  | invalidDate
  deriving DecidableEq

/-- A flat JavaScript object: field name to primitive value. -/
abbrev JsRecord : Type := List (String × Prim)

/-- JavaScript truthiness of a primitive: `undefined`, `null`, `false`,
`0` and `""` are falsy; every object — including an Invalid Date — is
truthy. -/
def jsTruthy : Prim → Bool
  | Prim.undef => false
  | Prim.null => false
  | Prim.boolean b => b
  | Prim.num n => decide (n ≠ 0)
  | Prim.str s => decide (s ≠ "")
  | Prim.date _ => true
  | Prim.invalidDate => true

/-- The ECMAScript `new Date(v)` constructor on a primitive argument,
parametric in the date-string parser of the implementation `parse` (for which
ECMAScript fixes `parse "" = none`): `undefined` and unparsable strings
give an Invalid Date; `null`, `false` and `0` coerce to the number 0 and
give the valid epoch date; numbers are epoch milliseconds; a date is
copied. -/
def jsNewDate (parse : String → Option Int) : Prim → Prim
  | Prim.undef => Prim.invalidDate
  | Prim.null => Prim.date 0
  | Prim.boolean b => Prim.date (if b then 1 else 0)
  | Prim.num n => Prim.date n
  | Prim.str s =>
      match parse s with
      | some t => Prim.date t
      | none => Prim.invalidDate
  | Prim.date t => Prim.date t
  | Prim.invalidDate => Prim.invalidDate

/-- Read a field of a JavaScript object: a missing key reads as
`undefined`. -/
def getField (r : JsRecord) (n : String) : Prim :=
  (lookupKey r n).getD Prim.undef

/-- Assign a field of a JavaScript object: overwrite the existing key or
append a new one. -/
def setField : JsRecord → String → Prim → JsRecord
  | [], n, v => [(n, v)]
  | (m, w) :: rest, n, v =>
      if m = n then (n, v) :: rest else (m, w) :: setField rest n v

/-- From `server.js` `createCategory` (line 194), `updateCategory`
(line 220) and `updateCategoryWithLogs` (line 577):
`rec.created_at = new Date(rec.created_at)` runs unconditionally. -/
def convertCreatedAtAlways (parse : String → Option Int) (r : JsRecord) :
    JsRecord :=
  setField r "created_at" (jsNewDate parse (getField r "created_at"))

/-- From `server.js` `createProduct`, `updateProduct`, `createCustomer`,
`updateCustomer`, `createOrder`, `updateOrder`, `createOrderDetail`,
`updateOrderDetail`: the conversion is guarded by
`if (rec.created_at) { ... }`, so a falsy `created_at` is left unchanged. -/
def convertCreatedAtGuarded (parse : String → Option Int) (r : JsRecord) :
    JsRecord :=
  if jsTruthy (getField r "created_at") then convertCreatedAtAlways parse r
  else r

theorem getField_setField (r : JsRecord) (n : String) (v : Prim) :
    getField (setField r n v) n = v := by
  induction r with
  | nil =>
      show getField [(n, v)] n = v
      unfold getField lookupKey
      rw [if_pos rfl]
      rfl
  | cons p rest ih =>
      obtain ⟨m, w⟩ := p
      show getField (if m = n then (n, v) :: rest else (m, w) :: setField rest n v) n = v
      by_cases hmn : m = n
      · rw [if_pos hmn]
        unfold getField lookupKey
        rw [if_pos rfl]
        rfl
      · rw [if_neg hmn]
        unfold getField lookupKey
        rw [if_neg hmn]
        exact ih

/-- C10 counterexample: the claim says the unconditional wrappers turn a
null `created_at` into an Invalid Date, but `new Date(null)` is the valid
epoch date `1970-01-01T00:00:00Z`, not an Invalid Date. -/
theorem created_at_null_gives_valid_epoch_date :
    convertCreatedAtAlways (fun _ => none) [("created_at", Prim.null)] =
      [("created_at", Prim.date 0)]
    ∧ Prim.date 0 ≠ Prim.invalidDate :=
  ⟨rfl, by decide⟩

/-- C10 amended: `createCategory`, `updateCategory` and
`updateCategoryWithLogs` overwrite `created_at` with
`new Date(created_at)` even when it is absent, null or otherwise falsy;
the result is an Invalid Date when the field is absent/undefined or the
empty string, but the valid epoch date when it is null, `0` or `false`.
The guarded wrappers (`createProduct`, `createCustomer`, `createOrder`,
and the other truthiness-guarded ones) leave any falsy `created_at`
unchanged. -/
theorem created_at_conversion_unconditional_vs_guarded
    (parse : String → Option Int) (hparse : parse "" = none) (r : JsRecord) :
    (jsTruthy (getField r "created_at") = false →
        convertCreatedAtGuarded parse r = r)
    ∧ (getField (convertCreatedAtAlways parse r) "created_at" =
        jsNewDate parse (getField r "created_at"))
    ∧ (getField r "created_at" = Prim.undef ∨ getField r "created_at" = Prim.str "" →
        getField (convertCreatedAtAlways parse r) "created_at" = Prim.invalidDate)
    ∧ (getField r "created_at" = Prim.null ∨ getField r "created_at" = Prim.num 0
        ∨ getField r "created_at" = Prim.boolean false →
        getField (convertCreatedAtAlways parse r) "created_at" = Prim.date 0) := by
  have hget : getField (convertCreatedAtAlways parse r) "created_at" =
      jsNewDate parse (getField r "created_at") :=
    getField_setField r "created_at" (jsNewDate parse (getField r "created_at"))
  refine ⟨?_, hget, ?_, ?_⟩
  · intro hfalsy
    unfold convertCreatedAtGuarded
    rw [hfalsy]
    rfl
  · rintro (h | h) <;> rw [hget, h]
    · rfl
    · show (match parse "" with
        | some t => Prim.date t
        | none => Prim.invalidDate) = Prim.invalidDate
      rw [hparse]
  · rintro (h | h | h) <;> rw [hget, h] <;> rfl

/-- Witness for C10 amended, at concrete records: a guarded wrapper leaves
a null `created_at` alone; the unconditional wrapper maps an absent
`created_at` to an Invalid Date and a null one to the epoch date. -/
theorem created_at_conversion_unconditional_vs_guarded_witness :
    convertCreatedAtGuarded (fun _ => none) [("created_at", Prim.null)] =
      [("created_at", Prim.null)]
    ∧ getField (convertCreatedAtAlways (fun _ => none)
        [("name", Prim.str "laptop")]) "created_at" = Prim.invalidDate
    ∧ getField (convertCreatedAtAlways (fun _ => none)
        [("created_at", Prim.null)]) "created_at" = Prim.date 0 :=
  ⟨(created_at_conversion_unconditional_vs_guarded (fun _ => none) rfl
      [("created_at", Prim.null)]).1 (by decide),
   (created_at_conversion_unconditional_vs_guarded (fun _ => none) rfl
      [("name", Prim.str "laptop")]).2.2.1 (Or.inl (by decide)),
   (created_at_conversion_unconditional_vs_guarded (fun _ => none) rfl
      [("created_at", Prim.null)]).2.2.2 (Or.inl (by decide))⟩

/-! ## The response envelope and the wrapper return values (C9, C4) -/

/-- The `data` payload of a response envelope as this application sees it:
null, one record, or an array of records. -/
inductive Payload where
  | null
  | record (r : JsRecord)
  | records (rs : List JsRecord)
  deriving DecidableEq

/-- The uniform response envelope of the engine (spec §6):
`{status, message, data, metadata?}`. -/
structure Envelope where
  status : Nat
  message : String
  data : Payload
  metadata : Option JsRecord
  deriving DecidableEq

/-- Wrap a string in JSON quotes (simplified: the strings of this
application need no escaping). -/
def quoteStr (s : String) : String := "\"" ++ s ++ "\""

/-- Simplified rendering of `JSON.stringify` on a primitive. -/
def stringifyPrim : Prim → String
  | Prim.undef => "null"
  | Prim.null => "null"
  | Prim.boolean true => "true"
  | Prim.boolean false => "false"
  | Prim.num n => toString n
  | Prim.str s => quoteStr s
  | Prim.date t => quoteStr ("epoch+" ++ toString t ++ "ms")
  | Prim.invalidDate => quoteStr "Invalid Date"

/-- Simplified rendering of `JSON.stringify` on a flat record. -/
def stringifyRecord (r : JsRecord) : String :=
  "\x7b" ++
    String.intercalate ","
      (r.map (fun f => quoteStr f.fst ++ ":" ++ stringifyPrim f.snd)) ++
  "\x7d"

/-- Simplified rendering of `JSON.stringify` on a payload. -/
def stringifyPayload : Payload → String
  | Payload.null => "null"
  | Payload.record r => stringifyRecord r
  | Payload.records rs =>
      "[" ++ String.intercalate "," (rs.map stringifyRecord) ++ "]"

/-- Simplified rendering of `JSON.stringify` on the whole envelope: always
a JSON string, never the envelope object. -/
def stringifyEnvelope (e : Envelope) : String :=
  "\x7b\"status\":" ++ toString e.status ++
    ",\"message\":" ++ quoteStr e.message ++
    ",\"data\":" ++ stringifyPayload e.data ++
    (match e.metadata with
     | some m => ",\"metadata\":" ++ stringifyRecord m
     | none => "") ++
  "\x7d"

/-- What a wrapper call produces: a returned string, or a thrown
exception. -/
inductive CallResult where
  | ret (s : String)
  | threw (msg : String)
  deriving DecidableEq

/-- The public wrapper functions of `server.js` (each forwards to a
library call and serializes the response; `doGet`, `include` and
`createSchema` are page/setup functions, not wrappers). -/
inductive WrapperName where
  | getCategoryRelatedRecords
  | readMultipleCategories
  | createCategory
  | readCategoryTable
  | updateCategory
  | readCategoryById
  | removeCategory
  | createProduct
  | readProductTable
  | readProductById
  | updateProduct
  | removeProduct
  | getRelatedCustomerRecords
  | createCustomer
  | readCustomerTable
  | readCustomerById
  | updateCustomer
  | removeCustomer
  | createOrder
  | readOrderTable
  | readOrderById
  | updateOrder
  | removeOrder
  | createOrderDetail
  | readOrderDetailTable
  | readOrderDetailById
  | updateOrderDetail
  | removeOrderDetail
  | readOrderDetailFromOrder
  | readOrderDetailFromProduct
  | updateCategoryWithLogs
  | getCategoryRelatedRecordsWithLogs
  | getLastCreationResult
  | getCategoryRelatedRecordsTextFinder
  | getCategoryRelatedRecordsFilter
  | checkOrderDetailIntegrity
  | deleteOrderDetailsByOrderId
  | applyColorToTable
  | readCategoryTableWithOptions
  | upsertCategoryByName
  deriving DecidableEq

/-- Exactly two wrappers iterate the payload before returning:
`readOrderDetailFromOrder` and `readOrderDetailFromProduct` run
`for (record of response.data) { console.log(record) }` (`server.js`
lines 531 and 560) between the library call and the return. -/
def iteratesData : WrapperName → Bool
  | WrapperName.readOrderDetailFromOrder => true
  | WrapperName.readOrderDetailFromProduct => true
  | _ => false

/-- From `server.js`: what a wrapper does with the envelope the library
call returned.  Every wrapper body ends in `return JSON.stringify(response)`;
the two junction readers first run `for (record of response.data)`, which
throws a `TypeError` when `response.data` is not iterable (in particular
when it is null). -/
def wrapperReturn (w : WrapperName) (resp : Envelope) : CallResult :=
  if iteratesData w then
    match resp.data with
    | Payload.records _ => CallResult.ret (stringifyEnvelope resp)
    | _ => CallResult.threw "TypeError: response.data is not iterable"
  else CallResult.ret (stringifyEnvelope resp)

/-- C9 counterexample: when the library call returns an envelope with
`data: null` (the envelope shape the spec gives every error response),
`readOrderDetailFromOrder` throws at the `for (record of response.data)`
loop instead of returning a JSON string. -/
theorem junction_reader_throws_on_null_data :
    wrapperReturn WrapperName.readOrderDetailFromOrder
        (Envelope.mk 404 "Record not found" Payload.null none) =
      CallResult.threw "TypeError: response.data is not iterable"
    ∧ ∀ s : String,
        wrapperReturn WrapperName.readOrderDetailFromOrder
          (Envelope.mk 404 "Record not found" Payload.null none) ≠
        CallResult.ret s := by
  refine ⟨rfl, ?_⟩
  intro s h
  have h2 : CallResult.threw "TypeError: response.data is not iterable" =
      CallResult.ret s := h
  cases h2

/-- C9 amended: every public wrapper of `server.js` other than the two
junction readers returns the envelope serialized with `JSON.stringify` —
a JSON string, never the envelope object — on every envelope the library
call returns; the junction readers `readOrderDetailFromOrder` and
`readOrderDetailFromProduct` do so whenever the `data` of the envelope is an
array of records, and whenever any wrapper returns at all, the returned
value is the serialized string. -/
theorem wrappers_return_serialized_envelope (w : WrapperName) (resp : Envelope) :
    (iteratesData w = false →
        wrapperReturn w resp = CallResult.ret (stringifyEnvelope resp))
    ∧ (∀ rs, resp.data = Payload.records rs →
        wrapperReturn w resp = CallResult.ret (stringifyEnvelope resp))
    ∧ (∀ s, wrapperReturn w resp = CallResult.ret s →
        s = stringifyEnvelope resp) := by
  refine ⟨?_, ?_, ?_⟩
  · intro hni
    unfold wrapperReturn
    rw [hni]
    rfl
  · intro rs hrs
    unfold wrapperReturn
    cases hi : iteratesData w
    · rfl
    · simp only [if_pos, hrs]
  · intro s hret
    unfold wrapperReturn at hret
    cases hi : iteratesData w
    · rw [hi] at hret
      simp only [Bool.false_eq_true, if_false] at hret
      cases hret
      rfl
    · rw [hi] at hret
      simp only [if_true] at hret
      cases hd : resp.data with
      | null => rw [hd] at hret; cases hret
      | record r => rw [hd] at hret; cases hret
      | records rs =>
          rw [hd] at hret
          cases hret
          rfl

/-- Witness for C9 amended: `readCategoryById` returns the serialized
envelope of a found record; `readOrderDetailFromOrder` returns the
serialized envelope when `data` is a record array. -/
theorem wrappers_return_serialized_envelope_witness :
    wrapperReturn WrapperName.readCategoryById
        (Envelope.mk 200 "OK"
          (Payload.record [("name", Prim.str "books")]) none) =
      CallResult.ret (stringifyEnvelope
        (Envelope.mk 200 "OK"
          (Payload.record [("name", Prim.str "books")]) none))
    ∧ wrapperReturn WrapperName.readOrderDetailFromOrder
        (Envelope.mk 200 "OK"
          (Payload.records [[("quantity", Prim.num 2)]]) none) =
      CallResult.ret (stringifyEnvelope
        (Envelope.mk 200 "OK"
          (Payload.records [[("quantity", Prim.num 2)]]) none)) :=
  ⟨(wrappers_return_serialized_envelope WrapperName.readCategoryById
      (Envelope.mk 200 "OK"
        (Payload.record [("name", Prim.str "books")]) none)).1 rfl,
   (wrappers_return_serialized_envelope WrapperName.readOrderDetailFromOrder
      (Envelope.mk 200 "OK"
        (Payload.records [[("quantity", Prim.num 2)]]) none)).2.1
      [[("quantity", Prim.num 2)]] rfl⟩

/-! ## The function-call API boundary (C4, modelled from the spec §6–§7)

Every engine operation invoked through the function-call API returns the
uniform envelope, errors included; only programming misuse — an
unregistered table name — raises a hard error to the caller. -/

/-- The table contexts registered with the engine, by table name. -/
def DbContext : Type := List (String × Table JsRecord)

/-- An operation invoked through the function-call API. -/
inductive ApiOp where
  | createOp (table : String) (rec : JsRecord)
  | readOp (table : String) (k : Nat)
  | updateOp (table : String) (k : Nat) (rec : JsRecord)
  | removeOp (table : String) (k : Nat)
  | getAllOp (table : String)

/-- The table name an operation addresses. -/
def ApiOp.tableName : ApiOp → String
  | ApiOp.createOp t _ => t
  | ApiOp.readOp t _ => t
  | ApiOp.updateOp t _ _ => t
  | ApiOp.removeOp t _ => t
  | ApiOp.getAllOp t => t

/-- Modelled from the spec §6–§7: dispatch of a function-call API
operation.  A registered table always produces an `Except.ok` envelope —
success with a 200-class status, not-found and other operation errors
inside a 4xx envelope; an unregistered table name is programming misuse
and raises a hard error (`Except.error`). -/
def apiCall (ctx : DbContext) (op : ApiOp) : Except String Envelope :=
  match lookupKey ctx op.tableName with
  | none => Except.error ("Table not registered: " ++ op.tableName)
  | some t =>
      match op with
      | ApiOp.createOp _ r =>
          Except.ok (Envelope.mk 201 "Created" (Payload.record r) none)
      | ApiOp.readOp _ k =>
          match lookupId t.live k with
          | some r => Except.ok (Envelope.mk 200 "OK" (Payload.record r) none)
          | none =>
              Except.ok (Envelope.mk 404 "Record not found" Payload.null none)
      | ApiOp.updateOp _ k r =>
          match lookupId t.live k with
          | some _ => Except.ok (Envelope.mk 200 "Updated" (Payload.record r) none)
          | none =>
              Except.ok (Envelope.mk 404 "Record not found" Payload.null none)
      | ApiOp.removeOp _ k =>
          match lookupId t.live k with
          | some r => Except.ok (Envelope.mk 200 "Removed" (Payload.record r) none)
          | none =>
              Except.ok (Envelope.mk 404 "Record not found" Payload.null none)
      | ApiOp.getAllOp _ =>
          Except.ok (Envelope.mk 200 "OK" (Payload.records (t.live.map Prod.snd)) none)

theorem lookupKey_eq_none_iff {α : Type} (l : List (String × α)) (n : String) :
    lookupKey l n = none ↔ n ∉ l.map Prod.fst := by
  induction l with
  | nil => simp [lookupKey]
  | cons p rest ih =>
      obtain ⟨m, a⟩ := p
      rw [lookupKey]
      by_cases hmn : m = n
      · subst hmn
        simp
      · rw [if_neg hmn]
        simp only [List.map_cons, List.mem_cons, ih]
        constructor
        · rintro hni (h | h)
          · exact hmn h.symm
          · exact hni h
        · intro hni h
          exact hni (Or.inr h)

/-- C4: an operation invoked through the function-call API against a
registered table always yields a response envelope (`Except.ok`) — in
particular a read of an absent id yields a 404 envelope with null data
rather than a thrown error — while an unregistered table name (programming
misuse) raises a hard error to the caller. -/
theorem apiCall_envelope_boundary (ctx : DbContext) (op : ApiOp) :
    (op.tableName ∈ ctx.map Prod.fst → ∃ env, apiCall ctx op = Except.ok env)
    ∧ (op.tableName ∉ ctx.map Prod.fst →
        apiCall ctx op = Except.error ("Table not registered: " ++ op.tableName))
    ∧ (∀ tbl k t, lookupKey ctx tbl = some t → lookupId t.live k = none →
        apiCall ctx (ApiOp.readOp tbl k) =
          Except.ok (Envelope.mk 404 "Record not found" Payload.null none)) := by
  refine ⟨?_, ?_, ?_⟩
  · intro hmem
    cases hl : lookupKey ctx op.tableName with
    | none => exact absurd hmem ((lookupKey_eq_none_iff ctx op.tableName).mp hl)
    | some t =>
        cases op with
        | createOp tb r =>
            simp only [ApiOp.tableName] at hl
            exact ⟨Envelope.mk 201 "Created" (Payload.record r) none,
              by simp [apiCall, ApiOp.tableName, hl]⟩
        | readOp tb k =>
            simp only [ApiOp.tableName] at hl
            cases hk : lookupId t.live k with
            | some r =>
                exact ⟨Envelope.mk 200 "OK" (Payload.record r) none,
                  by simp [apiCall, ApiOp.tableName, hl, hk]⟩
            | none =>
                exact ⟨Envelope.mk 404 "Record not found" Payload.null none,
                  by simp [apiCall, ApiOp.tableName, hl, hk]⟩
        | updateOp tb k r =>
            simp only [ApiOp.tableName] at hl
            cases hk : lookupId t.live k with
            | some r2 =>
                exact ⟨Envelope.mk 200 "Updated" (Payload.record r) none,
                  by simp [apiCall, ApiOp.tableName, hl, hk]⟩
            | none =>
                exact ⟨Envelope.mk 404 "Record not found" Payload.null none,
                  by simp [apiCall, ApiOp.tableName, hl, hk]⟩
        | removeOp tb k =>
            simp only [ApiOp.tableName] at hl
            cases hk : lookupId t.live k with
            | some r =>
                exact ⟨Envelope.mk 200 "Removed" (Payload.record r) none,
                  by simp [apiCall, ApiOp.tableName, hl, hk]⟩
            | none =>
                exact ⟨Envelope.mk 404 "Record not found" Payload.null none,
                  by simp [apiCall, ApiOp.tableName, hl, hk]⟩
        | getAllOp tb =>
            simp only [ApiOp.tableName] at hl
            exact ⟨Envelope.mk 200 "OK" (Payload.records (t.live.map Prod.snd)) none,
              by simp [apiCall, ApiOp.tableName, hl]⟩
  · intro hnmem
    have hl : lookupKey ctx op.tableName = none :=
      (lookupKey_eq_none_iff ctx op.tableName).mpr hnmem
    unfold apiCall
    rw [hl]
  · intro tbl k t hl hid
    simp [apiCall, ApiOp.tableName, hl, hid]

/-- Witness for C4 at a concrete context: a read of an absent id on the
registered CATEGORY table yields the 404 envelope; any operation on an
unregistered table name raises the hard error. -/
theorem apiCall_envelope_boundary_witness :
    apiCall [("CATEGORY", Table.mk [] [])] (ApiOp.readOp "CATEGORY" 1) =
      Except.ok (Envelope.mk 404 "Record not found" Payload.null none)
    ∧ apiCall [("CATEGORY", Table.mk [] [])] (ApiOp.readOp "NOT_A_TABLE" 1) =
      Except.error "Table not registered: NOT_A_TABLE" :=
  ⟨(apiCall_envelope_boundary [("CATEGORY", Table.mk [] [])]
      (ApiOp.readOp "CATEGORY" 1)).2.2 "CATEGORY" 1 (Table.mk [] []) rfl rfl,
   (apiCall_envelope_boundary [("CATEGORY", Table.mk [] [])]
      (ApiOp.readOp "NOT_A_TABLE" 1)).2.1 (by decide)⟩

end CrudSheets
